import Mathlib

/-!
# Verification model of `scripts/extract_video_frames.py`

A shallow embedding of the batch video-frame-extraction script.  The
filesystem is modelled as explicit sets (lists) of directory paths and
file paths; paths are lists of components.  The external `ffmpeg`
invocation is modelled by an oracle `tool : String → ToolOutcome` giving,
for each video file name, whether the invocation succeeds, times out, or
exits non-zero, together with the names of the files the tool wrote into
the output directory before finishing.  Pure Python functions become Lean
functions with the same names; `subprocess`/`sys.exit` effects become
explicit data in the results.
-/

/-- A filesystem path, as a list of components (no separators). -/
abbrev FPath := List String

/-- Filesystem state: the set of existing directories and files.
`pathlib.Path.exists` / `mkdir` / `glob` are read off these lists. -/
structure FS where
  dirs : List FPath
  files : List FPath
deriving DecidableEq, Repr

/-- `Path(p).exists()` for a directory path. -/
def FS.dirExists (fs : FS) (p : FPath) : Bool := decide (p ∈ fs.dirs)

/-- Create a single directory (no-op when it already exists,
as with `exist_ok=True`). -/
def FS.addDir (fs : FS) (p : FPath) : FS :=
  if p ∈ fs.dirs then fs else { fs with dirs := p :: fs.dirs }

/-- Create a file (paths are unique, so re-creating is a no-op). -/
def FS.addFile (fs : FS) (p : FPath) : FS :=
  if p ∈ fs.files then fs else { fs with files := p :: fs.files }

/-- `Path(p).mkdir(parents=True, exist_ok=True)`: create the directory and
every ancestor. -/
def FS.mkdirParents (fs : FS) (p : FPath) : FS :=
  (List.range p.length).foldl (fun f i => f.addDir (p.take (i + 1))) fs

/-- Names of the files that are direct children of directory `d`
(the entries `glob` iterates over). -/
def FS.filesIn (fs : FS) (d : FPath) : List String :=
  fs.files.filterMap fun p =>
    if p.take d.length = d then
      match p.drop d.length with
      | [n] => some n
      | _ => none
    else none

/-- `s.endswith(suff)` on code points (also the semantics of a trailing
glob literal after `*`). -/
def listEndsWith (s suff : List Char) : Bool :=
  decide (suff = s.drop (s.length - suff.length))

/-- String version of `listEndsWith`. -/
def strEndsWith (s suff : String) : Bool := listEndsWith s.data suff.data

/-- `s.startswith(pre)` on code points. -/
def strStartsWith (s p : String) : Bool := decide (p.data = s.data.take p.data.length)

/-- The glob pattern `frame_*.jpg` from `is_already_processed` and
`extract_frames`.  Since `"frame_"` and `".jpg"` cannot overlap in a
match, `fnmatch` for this pattern is exactly the conjunction below. -/
def matchFramePat (n : String) : Bool := strStartsWith n "frame_" && strEndsWith n ".jpg"

/-- `list(d.glob("frame_*.jpg"))` as a list of file names. -/
def framesIn (fs : FS) (d : FPath) : List String := (fs.filesIn d).filter matchFramePat

/-- Index of the last `.` in a character list (`str.rfind`). -/
def lastDotIdx (cs : List Char) : Option Nat :=
  (List.range cs.length).foldl (fun acc i => if cs.getD i ' ' = '.' then some i else acc) none

/-- `pathlib.PurePath.stem`: the file name with its last suffix removed;
the suffix is non-empty only when the last dot is neither the first nor
the last character. -/
def stem (n : String) : String :=
  let cs := n.data
  match lastDotIdx cs with
  | none => n
  | some i => if 0 < i ∧ i + 1 < cs.length then ⟨cs.take i⟩ else n

/-- Lexicographic comparison of character lists by code point: the
ordering Python uses on strings. -/
def charLe : List Char → List Char → Bool
  | [], _ => true
  | _ :: _, [] => false
  | a :: as, b :: bs =>
    if a.toNat < b.toNat then true
    else if b.toNat < a.toNat then false
    else charLe as bs

/-- `a <= b` on file names (code-point lexicographic, as in `sorted`). -/
def nameLe (a b : String) : Bool := charLe a.data b.data

/-- `get_video_files`: glob `*.mp4` and `*.MP4` in the videos directory,
concatenate, and sort.  Sorting full paths that share the same directory
is the same as sorting the file names. -/
def get_video_files (fs : FS) (videos_dir : FPath) : List String :=
  let lower := (fs.filesIn videos_dir).filter fun n => strEndsWith n ".mp4"
  let upper := (fs.filesIn videos_dir).filter fun n => strEndsWith n ".MP4"
  List.insertionSort (fun a b => nameLe a b = true) (lower ++ upper)

/-- `is_already_processed`: look for `videos_dir/<stem>/all_frames`; when
it exists and holds at least one `frame_*.jpg` file, return `true` with
the file count, else `(false, 0)`.  The function only reads `fs` (the
embedding returns no new filesystem: no writes, by construction). -/
def is_already_processed (fs : FS) (videoName : String) (videos_dir : FPath) : Bool × Nat :=
  let all_frames_dir := videos_dir ++ [stem videoName, "all_frames"]
  if fs.dirExists all_frames_dir then
    let frame_files := framesIn fs all_frames_dir
    if frame_files ≠ [] then (true, frame_files.length) else (false, 0)
  else (false, 0)

/-- Outcome of one external `ffmpeg` run: normal exit 0, `TimeoutExpired`,
or `CalledProcessError` with the captured stderr.  In every case `written`
is the list of file names the tool wrote into the output directory before
finishing (possibly partial output on the failure paths). -/
inductive ToolOutcome where
  | ok (written : List String)
  | timedOut (written : List String)
  | exitErr (stderr : String) (written : List String)
deriving DecidableEq, Repr

/-- The `(success, frame_count, error_message)` triple returned by
`extract_frames`. -/
structure ExtractResult where
  success : Bool
  frameCount : Nat
  errorMsg : Option String
deriving DecidableEq, Repr

/-- The fixed message of the `TimeoutExpired` branch. -/
def timeoutMsg : String :=
  "FFmpeg timed out (>5 minutes) - video file may be corrupted or too large"

/-- `extract_frames`: ensure the output directory exists, run the tool,
and on success recount `frame_*.jpg` files in the output directory; on
timeout or non-zero exit return `(False, 0, message)`.  The tool writes
its files in every case (no cleanup of partial output). -/
def extract_frames (fs : FS) (output_dir : FPath) (outcome : ToolOutcome) :
    FS × ExtractResult :=
  let fs1 := fs.mkdirParents output_dir
  match outcome with
  | .ok written =>
    let fs2 := written.foldl (fun f n => f.addFile (output_dir ++ [n])) fs1
    (fs2, ⟨true, (framesIn fs2 output_dir).length, none⟩)
  | .timedOut written =>
    let fs2 := written.foldl (fun f n => f.addFile (output_dir ++ [n])) fs1
    (fs2, ⟨false, 0, some timeoutMsg⟩)
  | .exitErr stderr written =>
    let fs2 := written.foldl (fun f n => f.addFile (output_dir ++ [n])) fs1
    (fs2, ⟨false, 0, some ("FFmpeg error: " ++ stderr)⟩)

/-- The non-skip body of one loop iteration of `process_videos`: create
`<stem>/all_frames` and `<stem>/release_frames`, then call
`extract_frames` on the video. -/
def stepRun (tool : String → ToolOutcome) (videos_dir : FPath) (name : String) (fs : FS) :
    FS × ExtractResult :=
  let all_frames_dir := videos_dir ++ [stem name, "all_frames"]
  let release_frames_dir := videos_dir ++ [stem name, "release_frames"]
  let fs1 := (fs.mkdirParents all_frames_dir).mkdirParents release_frames_dir
  extract_frames fs1 all_frames_dir (tool name)

/-- The `for` loop of `process_videos`, carrying the filesystem and the
three counters `processed_count`, `skipped_count`, `failed_count`. -/
def processLoop (tool : String → ToolOutcome) (videos_dir : FPath) (force : Bool) :
    List String → FS → Nat → Nat → Nat → FS × Nat × Nat × Nat
  | [], fs, p, s, f => (fs, p, s, f)
  | name :: rest, fs, p, s, f =>
    if (is_already_processed fs name videos_dir).1 && !force then
      processLoop tool videos_dir force rest fs p (s + 1) f
    else
      let res := stepRun tool videos_dir name fs
      if res.2.success then
        processLoop tool videos_dir force rest res.1 (p + 1) s f
      else
        processLoop tool videos_dir force rest res.1 p s (f + 1)

/-- The printed run summary. -/
structure Summary where
  processed : Nat
  skipped : Nat
  failed : Nat
  total : Nat
deriving DecidableEq, Repr

/-- Which way `process_videos` returned: missing directory, no mp4 files,
or the full loop with its summary. -/
inductive RunResult where
  | dirMissing
  | noVideos
  | done (sm : Summary)
deriving DecidableEq, Repr

/-- `process_videos`: early return when the videos directory is missing
or no video files are found, else run the loop over the discovered,
sorted video list and report the summary. -/
def process_videos (tool : String → ToolOutcome) (fs : FS) (videos_dir : FPath)
    (force : Bool) : FS × RunResult :=
  if fs.dirExists videos_dir = false then (fs, .dirMissing)
  else
    let names := get_video_files fs videos_dir
    if names = [] then (fs, .noVideos)
    else
      let r := processLoop tool videos_dir force names fs 0 0 0
      (r.1, .done ⟨r.2.1, r.2.2.1, r.2.2.2, names.length⟩)

/-- `get_desktop_path`: `~/Desktop` when it exists, else the
`FileNotFoundError` branch (`none`). -/
def get_desktop_path (fs : FS) (home : FPath) : Option FPath :=
  let desktop := home ++ ["Desktop"]
  if fs.dirExists desktop then some desktop else none

/-- Observable outcome of `main`: the process exit code, whether
`process_videos` was ever invoked (any file discovery attempted), the
final filesystem and the run result. -/
structure MainResult where
  exitCode : Nat
  ranProcess : Bool
  fs : FS
  runOutcome : Option RunResult
deriving DecidableEq, Repr

/-- `main`: resolve the videos directory (exiting 1 when no override is
given and the Desktop is missing), check ffmpeg (exiting 1 when absent),
then run `process_videos` and exit 0.  (Named `mainRun` because `main`
is reserved for entry points.) -/
def mainRun (fs : FS) (home : FPath) (ffmpegInstalled : Bool)
    (videosDirArg : Option FPath) (force : Bool) (tool : String → ToolOutcome) :
    MainResult :=
  match videosDirArg with
  | some d =>
    if ffmpegInstalled then
      let r := process_videos tool fs d force
      ⟨0, true, r.1, some r.2⟩
    else ⟨1, false, fs, none⟩
  | none =>
    match get_desktop_path fs home with
    | some desktop =>
      if ffmpegInstalled then
        let r := process_videos tool fs (desktop ++ ["baseball_vids"]) force
        ⟨0, true, r.1, some r.2⟩
      else ⟨1, false, fs, none⟩
    | none => ⟨1, false, fs, none⟩

/-!
## Basic filesystem lemmas
-/

theorem FS.dirs_addFile (fs : FS) (p : FPath) : (fs.addFile p).dirs = fs.dirs := by
  unfold FS.addFile; split <;> rfl

theorem FS.files_addDir (fs : FS) (p : FPath) : (fs.addDir p).files = fs.files := by
  unfold FS.addDir; split <;> rfl

theorem FS.mem_files_addFile {fs : FS} {p q : FPath} :
    q ∈ (fs.addFile p).files ↔ q = p ∨ q ∈ fs.files := by
  unfold FS.addFile
  split
  · next h => exact ⟨Or.inr, fun hq => hq.elim (fun e => e ▸ h) id⟩
  · simp [List.mem_cons]

theorem FS.mem_dirs_addDir {fs : FS} {p q : FPath} :
    q ∈ (fs.addDir p).dirs ↔ q = p ∨ q ∈ fs.dirs := by
  unfold FS.addDir
  split
  · next h => exact ⟨Or.inr, fun hq => hq.elim (fun e => e ▸ h) id⟩
  · simp [List.mem_cons]

theorem FS.dirExists_congr {fs fs' : FS} {d : FPath}
    (h : d ∈ fs'.dirs ↔ d ∈ fs.dirs) : fs'.dirExists d = fs.dirExists d :=
  decide_eq_decide.mpr h

theorem FS.files_mkdirParents (fs : FS) (p : FPath) :
    (fs.mkdirParents p).files = fs.files := by
  unfold FS.mkdirParents
  generalize List.range p.length = L
  induction L generalizing fs with
  | nil => rfl
  | cons i L ih => rw [List.foldl_cons, ih, FS.files_addDir]

theorem FS.mem_dirs_mkdirParents {fs : FS} {p d : FPath} :
    d ∈ (fs.mkdirParents p).dirs ↔ (∃ i ∈ List.range p.length, d = p.take (i + 1)) ∨ d ∈ fs.dirs := by
  unfold FS.mkdirParents
  generalize List.range p.length = L
  induction L generalizing fs with
  | nil => simp
  | cons i L ih =>
    rw [List.foldl_cons, ih]
    rw [FS.mem_dirs_addDir]
    constructor
    · rintro (⟨j, hj, rfl⟩ | rfl | hm)
      · exact Or.inl ⟨j, List.mem_cons_of_mem _ hj, rfl⟩
      · exact Or.inl ⟨i, List.mem_cons_self _ _, rfl⟩
      · exact Or.inr hm
    · rintro (⟨j, hj, rfl⟩ | hm)
      · rcases List.mem_cons.mp hj with rfl | hj
        · exact Or.inr (Or.inl rfl)
        · exact Or.inl ⟨j, hj, rfl⟩
      · exact Or.inr (Or.inr hm)

theorem FS.filesIn_congr_files {fs fs' : FS} (h : fs'.files = fs.files) (d : FPath) :
    fs'.filesIn d = fs.filesIn d := by
  unfold FS.filesIn; rw [h]

theorem FS.mem_filesIn {fs : FS} {d : FPath} {n : String} :
    n ∈ fs.filesIn d ↔ (d ++ [n]) ∈ fs.files := by
  unfold FS.filesIn
  simp only [List.mem_filterMap]
  constructor
  · rintro ⟨p, hp, hf⟩
    split at hf
    · next ht =>
      split at hf
      · next n' heq =>
        cases hf
        have hsplit := List.take_append_drop d.length p
        rw [ht, heq] at hsplit
        rw [hsplit]
        exact hp
      · exact absurd hf (by simp)
    · exact absurd hf (by simp)
  · intro h
    refine ⟨d ++ [n], h, ?_⟩
    have ht : (d ++ [n]).take d.length = d := List.take_left d [n]
    have hd : (d ++ [n]).drop d.length = [n] := List.drop_left d [n]
    rw [if_pos ht, hd]

theorem mem_framesIn {fs : FS} {d : FPath} {n : String} :
    n ∈ framesIn fs d ↔ (d ++ [n]) ∈ fs.files ∧ matchFramePat n = true := by
  unfold framesIn
  rw [List.mem_filter, FS.mem_filesIn]

theorem FS.filesIn_addFile_of_ne {fs : FS} {p d : FPath}
    (h : ∀ n, p ≠ d ++ [n]) : (fs.addFile p).filesIn d = fs.filesIn d := by
  unfold FS.addFile
  split
  · rfl
  · show FS.filesIn ⟨fs.dirs, p :: fs.files⟩ d = fs.filesIn d
    unfold FS.filesIn
    simp only [List.filterMap_cons]
    have hnone : (if p.take d.length = d then
        match p.drop d.length with
        | [n] => some n
        | _ => none
      else none) = (none : Option String) := by
      split
      · next ht =>
        split
        · next n heq =>
          exfalso
          have hsplit := List.take_append_drop d.length p
          rw [ht, heq] at hsplit
          exact h n hsplit.symm
        · rfl
      · rfl
    rw [hnone]

theorem FS.filesIn_foldl_addFile_of_ne {d0 d : FPath}
    (hne : ∀ m n, d0 ++ [m] ≠ d ++ [n]) (w : List String) (fs : FS) :
    (w.foldl (fun f n => f.addFile (d0 ++ [n])) fs).filesIn d = fs.filesIn d := by
  induction w generalizing fs with
  | nil => rfl
  | cons m w ih =>
    rw [List.foldl_cons, ih, FS.filesIn_addFile_of_ne (fun n => hne m n)]

theorem FS.dirs_foldl_addFile (d0 : FPath) (w : List String) (fs : FS) :
    (w.foldl (fun f n => f.addFile (d0 ++ [n])) fs).dirs = fs.dirs := by
  induction w generalizing fs with
  | nil => rfl
  | cons m w ih => rw [List.foldl_cons, ih, FS.dirs_addFile]

/-!
## Path disjointness lemmas

Everything one loop iteration writes lives under `videos_dir/<stem>/…`;
these lemmas isolate the path arithmetic showing that such writes cannot
alias the `all_frames` directory of a video with a different stem, nor a
direct child of `videos_dir` itself.
-/

theorem append_two_ne {vd : FPath} {a x c y : String} (hac : a ≠ c) :
    vd ++ [a, x] ≠ vd ++ [c, y] := by
  intro h
  have := List.append_cancel_left h
  exact hac (List.head_eq_of_cons_eq this)

theorem append_three_ne {vd : FPath} {a b m c e n : String} (hac : a ≠ c) :
    vd ++ [a, b, m] ≠ vd ++ [c, e, n] := by
  intro h
  have := List.append_cancel_left h
  exact hac (List.head_eq_of_cons_eq this)

theorem append_three_ne_one {vd : FPath} {a b m n : String} :
    vd ++ [a, b, m] ≠ vd ++ [n] := by
  intro h
  have := congrArg List.length h
  simp [List.length_append] at this

theorem take_append_two_ne {vd : FPath} {a x c y : String} (hac : a ≠ c) (i : Nat) :
    (vd ++ [a, x]).take (i + 1) ≠ vd ++ [c, y] := by
  intro h
  by_cases hlen : vd.length + 2 ≤ i + 1
  · rw [List.take_of_length_le (by simp [List.length_append]; omega)] at h
    exact append_two_ne hac h
  · have hl := congrArg List.length h
    rw [List.length_take] at hl
    simp [List.length_append] at hl
    omega

/-!
## `is_already_processed` congruence and preservation
-/

theorem already_congr {fs fs' : FS} {v : String} {vd : FPath}
    (hd : fs'.dirExists (vd ++ [stem v, "all_frames"]) =
      fs.dirExists (vd ++ [stem v, "all_frames"]))
    (hf : fs'.filesIn (vd ++ [stem v, "all_frames"]) =
      fs.filesIn (vd ++ [stem v, "all_frames"])) :
    is_already_processed fs' v vd = is_already_processed fs v vd := by
  unfold is_already_processed framesIn
  try dsimp only
  rw [hd, hf]

theorem FS.dirExists_congr_dirs {fs fs' : FS} (h : fs'.dirs = fs.dirs) (d : FPath) :
    fs'.dirExists d = fs.dirExists d := by
  unfold FS.dirExists; rw [h]

theorem dirExists_mkdirParents_sub {fs : FS} {vd : FPath} {a x c y : String}
    (hac : a ≠ c) :
    (fs.mkdirParents (vd ++ [a, x])).dirExists (vd ++ [c, y]) =
      fs.dirExists (vd ++ [c, y]) := by
  apply FS.dirExists_congr
  rw [FS.mem_dirs_mkdirParents]
  constructor
  · rintro (⟨i, _, h⟩ | hm)
    · exact absurd h.symm (take_append_two_ne hac i)
    · exact hm
  · exact Or.inr

theorem already_foldl_extract_ne {vd : FPath} {name v : String} {fs : FS}
    (h : stem name ≠ stem v) (w : List String) :
    is_already_processed
      (w.foldl (fun f n => f.addFile (vd ++ [stem name, "all_frames"] ++ [n]))
        ((((fs.mkdirParents (vd ++ [stem name, "all_frames"])).mkdirParents
            (vd ++ [stem name, "release_frames"])).mkdirParents
          (vd ++ [stem name, "all_frames"])))) v vd =
      is_already_processed fs v vd := by
  set fs3 := (((fs.mkdirParents (vd ++ [stem name, "all_frames"])).mkdirParents
      (vd ++ [stem name, "release_frames"])).mkdirParents
    (vd ++ [stem name, "all_frames"])) with hfs3
  apply already_congr
  · calc (w.foldl (fun f n => f.addFile (vd ++ [stem name, "all_frames"] ++ [n]))
          fs3).dirExists (vd ++ [stem v, "all_frames"])
        = fs3.dirExists (vd ++ [stem v, "all_frames"]) :=
          FS.dirExists_congr_dirs (FS.dirs_foldl_addFile _ _ _) _
      _ = fs.dirExists (vd ++ [stem v, "all_frames"]) := by
          rw [hfs3, dirExists_mkdirParents_sub h, dirExists_mkdirParents_sub h,
            dirExists_mkdirParents_sub h]
  · calc (w.foldl (fun f n => f.addFile (vd ++ [stem name, "all_frames"] ++ [n]))
          fs3).filesIn (vd ++ [stem v, "all_frames"])
        = fs3.filesIn (vd ++ [stem v, "all_frames"]) := by
          apply FS.filesIn_foldl_addFile_of_ne (fun m n hc => ?_) w
          rw [show vd ++ [stem name, "all_frames"] ++ [m] =
              vd ++ [stem name, "all_frames", m] by simp] at hc
          rw [show vd ++ [stem v, "all_frames"] ++ [n] =
              vd ++ [stem v, "all_frames", n] by simp] at hc
          exact append_three_ne h hc
      _ = fs.filesIn (vd ++ [stem v, "all_frames"]) := by
          apply FS.filesIn_congr_files
          rw [hfs3, FS.files_mkdirParents, FS.files_mkdirParents, FS.files_mkdirParents]

theorem already_stepRun_ne {tool : String → ToolOutcome} {vd : FPath}
    {name v : String} {fs : FS} (h : stem name ≠ stem v) :
    is_already_processed (stepRun tool vd name fs).1 v vd =
      is_already_processed fs v vd := by
  unfold stepRun extract_frames
  try dsimp only
  cases tool name with
  | ok w => exact already_foldl_extract_ne h w
  | timedOut w => exact already_foldl_extract_ne h w
  | exitErr e w => exact already_foldl_extract_ne h w

/-!
## Filesystem growth: nothing in the script ever removes a file or
directory, so every operation only enlarges the filesystem.
-/

/-- `fs` is contained in `fs'` (directories and files). -/
def FS.Le (fs fs' : FS) : Prop :=
  (∀ d ∈ fs.dirs, d ∈ fs'.dirs) ∧ (∀ p ∈ fs.files, p ∈ fs'.files)

theorem FS.Le.rfl {fs : FS} : FS.Le fs fs := ⟨fun _ h => h, fun _ h => h⟩

theorem FS.Le.trans {a b c : FS} (h1 : FS.Le a b) (h2 : FS.Le b c) : FS.Le a c :=
  ⟨fun d hd => h2.1 d (h1.1 d hd), fun p hp => h2.2 p (h1.2 p hp)⟩

theorem le_addFile (fs : FS) (p : FPath) : FS.Le fs (fs.addFile p) :=
  ⟨fun d hd => by rw [FS.dirs_addFile]; exact hd,
   fun q hq => FS.mem_files_addFile.mpr (Or.inr hq)⟩

theorem le_addDir (fs : FS) (p : FPath) : FS.Le fs (fs.addDir p) :=
  ⟨fun d hd => FS.mem_dirs_addDir.mpr (Or.inr hd),
   fun q hq => by rw [FS.files_addDir]; exact hq⟩

theorem le_mkdirParents (fs : FS) (p : FPath) : FS.Le fs (fs.mkdirParents p) := by
  unfold FS.mkdirParents
  generalize List.range p.length = L
  induction L generalizing fs with
  | nil => exact FS.Le.rfl
  | cons i L ih =>
    rw [List.foldl_cons]
    exact (le_addDir fs _).trans (ih _)

theorem le_foldl_addFile (d0 : FPath) (w : List String) (fs : FS) :
    FS.Le fs (w.foldl (fun f n => f.addFile (d0 ++ [n])) fs) := by
  induction w generalizing fs with
  | nil => exact FS.Le.rfl
  | cons a w ih =>
    rw [List.foldl_cons]
    exact (le_addFile fs _).trans (ih _)

theorem le_extract_frames (fs : FS) (d : FPath) (o : ToolOutcome) :
    FS.Le fs (extract_frames fs d o).1 := by
  unfold extract_frames
  try dsimp only
  cases o with
  | ok w => exact (le_mkdirParents fs d).trans (le_foldl_addFile d w _)
  | timedOut w => exact (le_mkdirParents fs d).trans (le_foldl_addFile d w _)
  | exitErr e w => exact (le_mkdirParents fs d).trans (le_foldl_addFile d w _)

theorem le_stepRun (tool : String → ToolOutcome) (vd : FPath) (name : String) (fs : FS) :
    FS.Le fs (stepRun tool vd name fs).1 := by
  unfold stepRun
  try dsimp only
  exact ((le_mkdirParents fs _).trans (le_mkdirParents _ _)).trans (le_extract_frames _ _ _)

theorem le_processLoop (tool : String → ToolOutcome) (vd : FPath) (force : Bool) :
    ∀ (names : List String) (fs : FS) (p s f : Nat),
      FS.Le fs (processLoop tool vd force names fs p s f).1 := by
  intro names
  induction names with
  | nil => intro fs p s f; exact FS.Le.rfl
  | cons name rest ih =>
    intro fs p s f
    rw [processLoop]
    split
    · exact ih fs p (s + 1) f
    · try dsimp only
      split
      · exact (le_stepRun tool vd name fs).trans (ih _ (p + 1) s f)
      · exact (le_stepRun tool vd name fs).trans (ih _ p s (f + 1))

theorem FS.dirExists_iff {fs : FS} {p : FPath} : fs.dirExists p = true ↔ p ∈ fs.dirs := by
  simp [FS.dirExists]

theorem dirExists_mono {fs fs' : FS} (h : FS.Le fs fs') {d : FPath}
    (hd : fs.dirExists d = true) : fs'.dirExists d = true :=
  FS.dirExists_iff.mpr (h.1 _ (FS.dirExists_iff.mp hd))

/-- The processed flag of `is_already_processed` unpacked. -/
theorem already_fst_true_iff {fs : FS} {v : String} {vd : FPath} :
    (is_already_processed fs v vd).1 = true ↔
      fs.dirExists (vd ++ [stem v, "all_frames"]) = true ∧
        framesIn fs (vd ++ [stem v, "all_frames"]) ≠ [] := by
  unfold is_already_processed
  try dsimp only
  split
  · next hd =>
    split
    · next hf => simpa [hd] using hf
    · next hf => simpa [hd] using hf
  · next hd => simp [hd]

theorem already_mono {fs fs' : FS} {v : String} {vd : FPath} (h : FS.Le fs fs')
    (ht : (is_already_processed fs v vd).1 = true) :
    (is_already_processed fs' v vd).1 = true := by
  rw [already_fst_true_iff] at ht ⊢
  obtain ⟨hd, hf⟩ := ht
  refine ⟨dirExists_mono h hd, ?_⟩
  obtain ⟨n, hn⟩ := List.exists_mem_of_ne_nil _ hf
  obtain ⟨hmem, hpat⟩ := mem_framesIn.mp hn
  exact List.ne_nil_of_mem (mem_framesIn.mpr ⟨h.2 _ hmem, hpat⟩)

/-!
## Loop counting lemmas
-/

/-- Every video increments exactly one of the three counters: the loop is
total and the counters add up to the number of videos. -/
theorem processLoop_sum (tool : String → ToolOutcome) (vd : FPath) (force : Bool) :
    ∀ (names : List String) (fs : FS) (p s f : Nat),
      (processLoop tool vd force names fs p s f).2.1 +
        (processLoop tool vd force names fs p s f).2.2.1 +
        (processLoop tool vd force names fs p s f).2.2.2 =
      p + s + f + names.length := by
  intro names
  induction names with
  | nil => intro fs p s f; simp [processLoop]
  | cons name rest ih =>
    intro fs p s f
    rw [processLoop]
    split
    · rw [ih]; simp [List.length_cons]; omega
    · try dsimp only
      split
      · rw [ih]; simp [List.length_cons]; omega
      · rw [ih]; simp [List.length_cons]; omega

/-- A forced run never skips. -/
theorem processLoop_skipped_force (tool : String → ToolOutcome) (vd : FPath) :
    ∀ (names : List String) (fs : FS) (p s f : Nat),
      (processLoop tool vd true names fs p s f).2.2.1 = s := by
  intro names
  induction names with
  | nil => intro fs p s f; rfl
  | cons name rest ih =>
    intro fs p s f
    rw [processLoop]
    simp only [Bool.not_true, Bool.and_false]
    rw [if_neg (by simp)]
    try dsimp only
    split
    · exact ih _ (p + 1) s f
    · exact ih _ p s (f + 1)

/-- When all discovered stems are distinct, a non-forced run skips exactly
the videos that were already processed at the start: processing one video
cannot change the idempotency status of a video with a different stem. -/
theorem processLoop_skipped (tool : String → ToolOutcome) (vd : FPath) :
    ∀ (names : List String) (fs : FS) (p s f : Nat), (names.map stem).Nodup →
      (processLoop tool vd false names fs p s f).2.2.1 =
        s + (names.filter (fun n => (is_already_processed fs n vd).1)).length := by
  intro names
  induction names with
  | nil => intro fs p s f _; rfl
  | cons name rest ih =>
    intro fs p s f hnd
    rw [List.map_cons, List.nodup_cons] at hnd
    obtain ⟨hnotin, hnd⟩ := hnd
    rw [processLoop]
    simp only [Bool.not_false, Bool.and_true]
    have hpres : ∀ n ∈ rest,
        ((is_already_processed (stepRun tool vd name fs).1 n vd).1 : Bool) =
          (is_already_processed fs n vd).1 := by
      intro n hn
      have hne : stem name ≠ stem n := fun e => hnotin (e ▸ List.mem_map_of_mem stem hn)
      rw [already_stepRun_ne hne]
    by_cases hc : (is_already_processed fs name vd).1 = true
    · rw [if_pos hc, ih fs p (s + 1) f hnd, List.filter_cons_of_pos (by simpa using hc)]
      simp [List.length_cons]
      omega
    · rw [if_neg hc]
      try dsimp only
      rw [List.filter_cons_of_neg (by simpa using hc)]
      split
      · rw [ih _ (p + 1) s f hnd, List.filter_congr hpres]
      · rw [ih _ p s (f + 1) hnd, List.filter_congr hpres]

/-!
## Stability of discovery across the loop: the loop writes only files of
the form `videos_dir/<stem>/all_frames/<name>`, which are not direct
children of `videos_dir`, so a second discovery sees the same entries.
-/

theorem filesIn_vd_extract_fold {vd : FPath} {name : String} (g : FS) (w : List String) :
    (w.foldl (fun f n => f.addFile (vd ++ [stem name, "all_frames"] ++ [n])) g).filesIn vd =
      g.filesIn vd := by
  apply FS.filesIn_foldl_addFile_of_ne (fun m n hc => ?_) w
  rw [show vd ++ [stem name, "all_frames"] ++ [m] =
      vd ++ [stem name, "all_frames", m] by simp] at hc
  exact append_three_ne_one hc

theorem filesIn_vd_stepRun (tool : String → ToolOutcome) (vd : FPath) (name : String)
    (fs : FS) : (stepRun tool vd name fs).1.filesIn vd = fs.filesIn vd := by
  unfold stepRun extract_frames
  try dsimp only
  have base : ∀ g : FS, ∀ a b c : FPath,
      (((g.mkdirParents a).mkdirParents b).mkdirParents c).filesIn vd = g.filesIn vd := by
    intro g a b c
    apply FS.filesIn_congr_files
    rw [FS.files_mkdirParents, FS.files_mkdirParents, FS.files_mkdirParents]
  cases tool name with
  | ok w => rw [filesIn_vd_extract_fold _ w, base]
  | timedOut w => rw [filesIn_vd_extract_fold _ w, base]
  | exitErr e w => rw [filesIn_vd_extract_fold _ w, base]

theorem filesIn_vd_processLoop (tool : String → ToolOutcome) (vd : FPath) (force : Bool) :
    ∀ (names : List String) (fs : FS) (p s f : Nat),
      (processLoop tool vd force names fs p s f).1.filesIn vd = fs.filesIn vd := by
  intro names
  induction names with
  | nil => intro fs p s f; rfl
  | cons name rest ih =>
    intro fs p s f
    rw [processLoop]
    split
    · exact ih fs p (s + 1) f
    · try dsimp only
      split
      · rw [ih _ (p + 1) s f, filesIn_vd_stepRun]
      · rw [ih _ p s (f + 1), filesIn_vd_stepRun]

theorem get_video_files_congr {fs fs' : FS} {vd : FPath}
    (h : fs'.filesIn vd = fs.filesIn vd) :
    get_video_files fs' vd = get_video_files fs vd := by
  unfold get_video_files
  rw [h]

/-!
## A successful extraction that wrote a well-named frame marks its video
processed, and an already-processed video stays processed forever.
-/

theorem mem_files_foldl_addFile (d0 : FPath) :
    ∀ (w : List String) (fs : FS) (m : String), m ∈ w →
      (d0 ++ [m]) ∈ (w.foldl (fun f n => f.addFile (d0 ++ [n])) fs).files := by
  intro w
  induction w with
  | nil => intro fs m hm; cases hm
  | cons a w ih =>
    intro fs m hm
    rw [List.foldl_cons]
    rcases List.mem_cons.mp hm with rfl | hm'
    · exact (le_foldl_addFile d0 w _).2 _ (FS.mem_files_addFile.mpr (Or.inl rfl))
    · exact ih _ m hm'

theorem FS.self_mem_dirs_mkdirParents {fs : FS} {p : FPath} (h : p ≠ []) :
    p ∈ (fs.mkdirParents p).dirs := by
  rw [FS.mem_dirs_mkdirParents]
  left
  have hpos : 0 < p.length := List.length_pos.mpr h
  refine ⟨p.length - 1, ?_, ?_⟩
  · rw [List.mem_range]; omega
  · rw [show p.length - 1 + 1 = p.length by omega, List.take_length]

theorem already_after_ok_step (tool : String → ToolOutcome) (vd : FPath) (name : String)
    (fs : FS) (w : List String) (hw : tool name = ToolOutcome.ok w)
    (hm : ∃ m ∈ w, matchFramePat m = true) :
    (is_already_processed (stepRun tool vd name fs).1 name vd).1 = true := by
  unfold stepRun extract_frames
  try dsimp only
  rw [hw]
  try dsimp only
  rw [already_fst_true_iff]
  obtain ⟨m, hmw, hpat⟩ := hm
  constructor
  · rw [FS.dirExists_iff]
    have hdirs : ∀ g : FS,
        (w.foldl (fun f n => f.addFile (vd ++ [stem name, "all_frames"] ++ [n])) g).dirs =
          g.dirs := FS.dirs_foldl_addFile _ w
    rw [hdirs]
    exact FS.self_mem_dirs_mkdirParents (by simp)
  · apply List.ne_nil_of_mem (a := m)
    rw [mem_framesIn]
    exact ⟨mem_files_foldl_addFile _ w _ m hmw, hpat⟩

theorem stepRun_success_of_ok (tool : String → ToolOutcome) (vd : FPath) (name : String)
    (fs : FS) (w : List String) (hw : tool name = ToolOutcome.ok w) :
    (stepRun tool vd name fs).2.success = true := by
  unfold stepRun extract_frames
  try dsimp only
  rw [hw]

theorem processLoop_all_processed (tool : String → ToolOutcome) (vd : FPath)
    (htool : ∀ n, ∃ w, tool n = ToolOutcome.ok w ∧ ∃ m ∈ w, matchFramePat m = true) :
    ∀ (names : List String) (fs : FS) (p s f : Nat), ∀ v ∈ names,
      (is_already_processed (processLoop tool vd false names fs p s f).1 v vd).1 = true := by
  intro names
  induction names with
  | nil => intro fs p s f v hv; cases hv
  | cons name rest ih =>
    intro fs p s f v hv
    rw [processLoop]
    simp only [Bool.not_false, Bool.and_true]
    by_cases hc : (is_already_processed fs name vd).1 = true
    · rw [if_pos hc]
      rcases List.mem_cons.mp hv with rfl | hv'
      · exact already_mono (le_processLoop tool vd false rest fs p (s + 1) f) hc
      · exact ih fs p (s + 1) f v hv'
    · rw [if_neg hc]
      try dsimp only
      obtain ⟨w, hw, hm⟩ := htool name
      rw [if_pos (stepRun_success_of_ok tool vd name fs w hw)]
      rcases List.mem_cons.mp hv with rfl | hv'
      · exact already_mono (le_processLoop tool vd false rest _ (p + 1) s f)
          (already_after_ok_step tool vd v fs w hw hm)
      · exact ih _ (p + 1) s f v hv'

theorem processLoop_all_skip (tool : String → ToolOutcome) (vd : FPath) :
    ∀ (names : List String) (fs : FS) (p s f : Nat),
      (∀ v ∈ names, (is_already_processed fs v vd).1 = true) →
      processLoop tool vd false names fs p s f = (fs, p, s + names.length, f) := by
  intro names
  induction names with
  | nil => intro fs p s f _; rfl
  | cons name rest ih =>
    intro fs p s f hall
    rw [processLoop]
    simp only [Bool.not_false, Bool.and_true]
    rw [if_pos (hall name (List.mem_cons_self _ _))]
    rw [ih fs p (s + 1) f (fun v hv => hall v (List.mem_cons_of_mem _ hv))]
    rw [List.length_cons, show s + 1 + rest.length = s + (rest.length + 1) by omega]

/-!
## The sort order used by discovery is total and transitive
-/

theorem charLe_total : ∀ as bs : List Char, charLe as bs = true ∨ charLe bs as = true := by
  intro as
  induction as with
  | nil => intro bs; left; rfl
  | cons a as ih =>
    intro bs
    cases bs with
    | nil => right; rfl
    | cons b bs =>
      by_cases h1 : a.toNat < b.toNat
      · left; simp [charLe, h1]
      · by_cases h2 : b.toNat < a.toNat
        · right; simp [charLe, h2]
        · rcases ih bs with h | h
          · left; simp [charLe, h1, h2, h]
          · right; simp [charLe, h1, h2, h]

theorem charLe_trans : ∀ as bs cs : List Char,
    charLe as bs = true → charLe bs cs = true → charLe as cs = true := by
  intro as
  induction as with
  | nil => intro bs cs _ _; rfl
  | cons a as ih =>
    intro bs cs h1 h2
    cases bs with
    | nil => exact absurd h1 (by simp [charLe])
    | cons b bs =>
      cases cs with
      | nil => exact absurd h2 (by simp [charLe])
      | cons c cs =>
        rw [charLe] at h1 h2 ⊢
        by_cases hab : a.toNat < b.toNat
        · rw [if_pos hab] at h1
          by_cases hbc : b.toNat < c.toNat
          · rw [if_pos (by omega)]
          · rw [if_neg hbc] at h2
            by_cases hcb : c.toNat < b.toNat
            · rw [if_pos hcb] at h2; cases h2
            · rw [if_pos (by omega)]
        · rw [if_neg hab] at h1
          by_cases hba : b.toNat < a.toNat
          · rw [if_pos hba] at h1; cases h1
          · rw [if_neg hba] at h1
            by_cases hbc : b.toNat < c.toNat
            · rw [if_pos (by omega)]
            · rw [if_neg hbc] at h2
              by_cases hcb : c.toNat < b.toNat
              · rw [if_pos hcb] at h2; cases h2
              · rw [if_neg hcb] at h2
                rw [if_neg (by omega), if_neg (by omega)]
                exact ih bs cs h1 h2

instance : IsTotal String (fun a b => nameLe a b = true) :=
  ⟨fun a b => charLe_total a.data b.data⟩

instance : IsTrans String (fun a b => nameLe a b = true) :=
  ⟨fun a b c => charLe_trans a.data b.data c.data⟩

/-!
## Failure outcomes in the loop
-/

theorem stepRun_fail_of_timedOut (tool : String → ToolOutcome) (vd : FPath) (name : String)
    (fs : FS) (w : List String) (hw : tool name = ToolOutcome.timedOut w) :
    (stepRun tool vd name fs).2.success = false := by
  unfold stepRun extract_frames
  try dsimp only
  rw [hw]

theorem stepRun_fail_of_exitErr (tool : String → ToolOutcome) (vd : FPath) (name : String)
    (fs : FS) (e : String) (w : List String) (hw : tool name = ToolOutcome.exitErr e w) :
    (stepRun tool vd name fs).2.success = false := by
  unfold stepRun extract_frames
  try dsimp only
  rw [hw]

/-- With a tool that always fails, a forced loop fails every video and
still accounts for the whole list. -/
theorem processLoop_all_fail (tool : String → ToolOutcome) (vd : FPath)
    (hfail : ∀ (n : String) (g : FS), (stepRun tool vd n g).2.success = false) :
    ∀ (names : List String) (fs : FS) (p s f : Nat),
      (processLoop tool vd true names fs p s f).2 = (p, s, f + names.length) := by
  intro names
  induction names with
  | nil => intro fs p s f; rfl
  | cons name rest ih =>
    intro fs p s f
    rw [processLoop]
    simp only [Bool.not_true, Bool.and_false]
    rw [if_neg (by simp)]
    try dsimp only
    rw [if_neg (by simp [hfail name fs])]
    rw [ih _ p s (f + 1), List.length_cons,
      show f + 1 + rest.length = f + (rest.length + 1) by omega]

/-- Unfolding `process_videos` when the directory exists and videos are
found. -/
theorem process_videos_eq (tool : String → ToolOutcome) (fs : FS) (vd : FPath) (force : Bool)
    (hdir : fs.dirExists vd = true) (hne : get_video_files fs vd ≠ []) :
    process_videos tool fs vd force =
      ((processLoop tool vd force (get_video_files fs vd) fs 0 0 0).1,
        RunResult.done
          ⟨(processLoop tool vd force (get_video_files fs vd) fs 0 0 0).2.1,
           (processLoop tool vd force (get_video_files fs vd) fs 0 0 0).2.2.1,
           (processLoop tool vd force (get_video_files fs vd) fs 0 0 0).2.2.2,
           (get_video_files fs vd).length⟩) := by
  unfold process_videos
  rw [if_neg (by simp [hdir])]
  try dsimp only
  rw [if_neg hne]

/-!
## Claim theorems
-/

/-- C3: `is_already_processed` returns `(false, 0)` exactly when the
`all_frames` directory of the video is absent or holds no `frame_*.jpg`
file, and `(true, count)` with the existing artifact count as soon as at
least one such file exists; it performs no filesystem writes (in the
embedding it consumes `fs` and returns no new filesystem). -/
theorem C3_already_processed_spec (fs : FS) (v : String) (vd : FPath) :
    (is_already_processed fs v vd =
        (true, (framesIn fs (vd ++ [stem v, "all_frames"])).length)
      ∧ fs.dirExists (vd ++ [stem v, "all_frames"]) = true
      ∧ framesIn fs (vd ++ [stem v, "all_frames"]) ≠ [])
    ∨ (is_already_processed fs v vd = (false, 0)
      ∧ (fs.dirExists (vd ++ [stem v, "all_frames"]) = false
        ∨ framesIn fs (vd ++ [stem v, "all_frames"]) = [])) := by
  unfold is_already_processed
  try dsimp only
  split
  · next hd =>
    split
    · next hf => exact Or.inl ⟨rfl, hd, hf⟩
    · next hf => exact Or.inr ⟨rfl, Or.inr (by simpa using hf)⟩
  · next hd => exact Or.inr ⟨rfl, Or.inl (by simpa using hd)⟩

/-- C10: the idempotency check never reports "processed" with a zero
count: its result is `(false, 0)` or `(true, n)` with `n ≥ 1`, `n` being
the number of `frame_*.jpg` files in the video's output directory. -/
theorem C10_no_true_zero (fs : FS) (v : String) (vd : FPath) :
    is_already_processed fs v vd = (false, 0)
    ∨ ((is_already_processed fs v vd).1 = true
      ∧ 1 ≤ (is_already_processed fs v vd).2
      ∧ (is_already_processed fs v vd).2 =
          (framesIn fs (vd ++ [stem v, "all_frames"])).length) := by
  unfold is_already_processed
  try dsimp only
  split
  · split
    · next hf =>
      refine Or.inr ⟨rfl, ?_, rfl⟩
      have := List.length_pos.mpr hf
      omega
    · exact Or.inl rfl
  · exact Or.inl rfl

/-- The file name whose extension matches `.mp4` case-insensitively but
is neither all-lowercase `.mp4` nor all-uppercase `.MP4`. -/
def lowerName (n : String) : String := ⟨n.data.map Char.toLower⟩

def fsC4c : FS := { dirs := [["vids"]], files := [["vids", "a.Mp4"]] }

/-- C4 counterexample: `a.Mp4` has an extension matching the container
format case-insensitively, yet discovery returns nothing: the code only
globs the all-lowercase and all-uppercase extension spellings. -/
theorem C4_counterexample :
    "a.Mp4" ∈ fsC4c.filesIn ["vids"]
    ∧ strEndsWith (lowerName "a.Mp4") ".mp4" = true
    ∧ get_video_files fsC4c ["vids"] = [] := by decide

def fsC4w : FS :=
  { dirs := [["vids"]]
    files := [["vids", "game1.mp4"], ["vids", "game2.MP4"], ["vids", "notes.txt"]] }

/-- C4 (amended): discovery returns exactly the files whose name ends in
the literal extension `.mp4` or `.MP4` (not other case mixtures), in
sorted order, and in particular returns `[game1.mp4, game2.MP4]` for the
spec's example directory, ignoring `notes.txt`. -/
theorem C4_discovery_amended :
    (∀ (fs : FS) (vd : FPath) (n : String),
      n ∈ get_video_files fs vd ↔
        n ∈ fs.filesIn vd ∧ (strEndsWith n ".mp4" = true ∨ strEndsWith n ".MP4" = true))
    ∧ (∀ (fs : FS) (vd : FPath),
        List.Sorted (fun a b => nameLe a b = true) (get_video_files fs vd))
    ∧ get_video_files fsC4w ["vids"] = ["game1.mp4", "game2.MP4"] := by
  refine ⟨?_, ?_, by decide⟩
  · intro fs vd n
    unfold get_video_files
    try dsimp only
    rw [List.mem_insertionSort, List.mem_append, List.mem_filter, List.mem_filter]
    constructor
    · rintro (⟨h, he⟩ | ⟨h, he⟩)
      · exact ⟨h, Or.inl he⟩
      · exact ⟨h, Or.inr he⟩
    · rintro ⟨h, he | he⟩
      · exact Or.inl ⟨h, he⟩
      · exact Or.inr ⟨h, he⟩
  · intro fs vd
    unfold get_video_files
    try dsimp only
    exact List.sorted_insertionSort _ _

def fsC7 : FS := { dirs := [], files := [["out", "frame_0001.jpg"]] }

/-- C7: a successful extraction reports exactly the number of
`frame_*.jpg` files found by re-listing the output directory after the
tool finishes — not the count of files the tool itself wrote.  The
concrete conjunct shows the two differ: a tool run that wrote only
`junk.txt` (self-reported one file) yields count 1 from the pre-existing
on-disk frame, not from anything the tool declared. -/
theorem C7_success_recount :
    (∀ (fs : FS) (output_dir : FPath) (written : List String),
      (extract_frames fs output_dir (ToolOutcome.ok written)).2 =
        ⟨true,
          (framesIn (extract_frames fs output_dir (ToolOutcome.ok written)).1
            output_dir).length,
          none⟩)
    ∧ (extract_frames fsC7 ["out"] (ToolOutcome.ok ["junk.txt"])).2.frameCount = 1 := by
  refine ⟨?_, by decide⟩
  intro fs output_dir written
  unfold extract_frames
  rfl

/-- C9: both failure outcomes return success `false`, frame count exactly
`0`, and a non-empty error message, even though the files the tool wrote
before failing remain on disk (final conjunct): the failure path does not
recount the output directory. -/
theorem C9_failure_zero_count (fs : FS) (output_dir : FPath) (written : List String)
    (stderr : String) :
    (extract_frames fs output_dir (ToolOutcome.timedOut written)).2 =
        ⟨false, 0, some timeoutMsg⟩
    ∧ (extract_frames fs output_dir (ToolOutcome.exitErr stderr written)).2 =
        ⟨false, 0, some ("FFmpeg error: " ++ stderr)⟩
    ∧ timeoutMsg ≠ ""
    ∧ ("FFmpeg error: " ++ stderr) ≠ ""
    ∧ (∀ m ∈ written,
        (output_dir ++ [m]) ∈
          (extract_frames fs output_dir (ToolOutcome.timedOut written)).1.files) := by
  refine ⟨rfl, rfl, by decide, ?_, ?_⟩
  · intro h
    have hlen := congrArg String.length h
    rw [String.length_append] at hlen
    have h14 : ("FFmpeg error: " : String).length = 14 := rfl
    have h0 : ("" : String).length = 0 := rfl
    omega
  · intro m hm
    unfold extract_frames
    try dsimp only
    exact mem_files_foldl_addFile output_dir written _ m hm

def fsC9w : FS := { dirs := [], files := [] }

theorem C9_witness :
    (["out"] ++ ["frame_0001.jpg"]) ∈
      (extract_frames fsC9w ["out"] (ToolOutcome.timedOut ["frame_0001.jpg"])).1.files :=
  (C9_failure_zero_count fsC9w ["out"] ["frame_0001.jpg"] "e").2.2.2.2
    "frame_0001.jpg" (by decide)

/-- C6: a timeout produces a failure whose error message differs from the
one produced by a non-zero tool exit (which instead carries the tool's
stderr), for every possible stderr; and with force set (so no video is
skipped), a loop over N videos in which every invocation times out — or
every invocation exits non-zero — ends with 0 processed, 0 skipped and N
failed, keeping the summary total equal to N. -/
theorem C6_timeout_vs_exit :
    (∀ (fs : FS) (d : FPath) (w : List String),
      (extract_frames fs d (ToolOutcome.timedOut w)).2 = ⟨false, 0, some timeoutMsg⟩)
    ∧ (∀ (fs : FS) (d : FPath) (e : String) (w : List String),
      (extract_frames fs d (ToolOutcome.exitErr e w)).2 =
        ⟨false, 0, some ("FFmpeg error: " ++ e)⟩)
    ∧ (∀ e : String, decide (timeoutMsg = "FFmpeg error: " ++ e) = false)
    ∧ (∀ (vd : FPath) (names : List String) (fs : FS) (w : List String),
      (processLoop (fun _ => ToolOutcome.timedOut w) vd true names fs 0 0 0).2 =
        (0, 0, names.length))
    ∧ (∀ (vd : FPath) (names : List String) (fs : FS) (e : String) (w : List String),
      (processLoop (fun _ => ToolOutcome.exitErr e w) vd true names fs 0 0 0).2 =
        (0, 0, names.length)) := by
  refine ⟨fun _ _ _ => rfl, fun _ _ _ _ => rfl, ?_, ?_, ?_⟩
  · intro e
    rw [decide_eq_false_iff_not]
    intro h
    have hd := congrArg String.data h
    rw [String.data_append] at hd
    have h8 := congrArg (fun l : List Char => l[7]?) hd
    simp only at h8
    rw [List.getElem?_append_left (by decide)] at h8
    exact absurd h8 (by decide)
  · intro vd names fs w
    simpa using processLoop_all_fail _ vd
      (fun n g => stepRun_fail_of_timedOut _ vd n g w rfl) names fs 0 0 0
  · intro vd names fs e w
    simpa using processLoop_all_fail _ vd
      (fun n g => stepRun_fail_of_exitErr _ vd n g e w rfl) names fs 0 0 0

/-- C1: the orchestration loop is a total function of the discovered list
(it reaches the end of the list for every tool behavior, including per
video failures), and whenever `process_videos` reports a summary, the
three counters — each starting at zero, exactly one incremented per
video — add up to the discovered total. -/
theorem C1_summary_partition (tool : String → ToolOutcome) (fs : FS) (vd : FPath)
    (force : Bool) (sm : Summary)
    (h : (process_videos tool fs vd force).2 = RunResult.done sm) :
    sm.processed + sm.skipped + sm.failed = sm.total
    ∧ sm.total = (get_video_files fs vd).length := by
  unfold process_videos at h
  split at h
  · exact absurd h (by simp)
  · try dsimp only at h
    split at h
    · exact absurd h (by simp)
    · cases h
      refine ⟨?_, rfl⟩
      have hsum := processLoop_sum tool vd force (get_video_files fs vd) fs 0 0 0
      simpa using hsum

def fsC1w : FS := { dirs := [["vids"]], files := [["vids", "a.mp4"], ["vids", "b.mp4"]] }

def toolC1w : String → ToolOutcome := fun _ => ToolOutcome.exitErr "boom" []

theorem C1_witness :
    (Summary.mk 0 0 2 2).processed + (Summary.mk 0 0 2 2).skipped +
        (Summary.mk 0 0 2 2).failed = (Summary.mk 0 0 2 2).total
    ∧ (Summary.mk 0 0 2 2).total = (get_video_files fsC1w ["vids"]).length :=
  C1_summary_partition toolC1w fsC1w ["vids"] false ⟨0, 0, 2, 2⟩ (by decide)

def fsC2c : FS := { dirs := [["vids"]], files := [["vids", "a.mp4"], ["vids", "a.MP4"]] }

def toolC2c : String → ToolOutcome := fun _ => ToolOutcome.ok ["frame_0001.jpg"]

/-- C2 counterexample: a directory holding `a.mp4` and `a.MP4` — two
valid video files, none already processed (M = 0) — yields a non-forced
run that skips 1 video, not M = 0: the two files share the stem `a`, so
extracting the first (sorted `a.MP4`) makes the idempotency check report
the second as already processed mid-run. -/
theorem C2_counterexample :
    ((get_video_files fsC2c ["vids"]).filter
        (fun n => (is_already_processed fsC2c n ["vids"]).1)).length = 0
    ∧ (process_videos toolC2c fsC2c ["vids"] false).2 =
        RunResult.done ⟨1, 1, 0, 2⟩ := by decide

/-- C2 (amended): provided the discovered videos have pairwise-distinct
stems, a non-forced run skips exactly the M videos already processed at
the start and attempts extraction on exactly N − M, and a forced run
skips none and attempts all N.  (Without distinct stems a video can
become "already processed" mid-run, as the counterexample shows.) -/
theorem C2_skip_counts (tool : String → ToolOutcome) (fs : FS) (vd : FPath)
    (hnd : ((get_video_files fs vd).map stem).Nodup) :
    (∀ sm, (process_videos tool fs vd false).2 = RunResult.done sm →
      sm.skipped = ((get_video_files fs vd).filter
          (fun n => (is_already_processed fs n vd).1)).length
      ∧ sm.processed + sm.failed = (get_video_files fs vd).length - sm.skipped)
    ∧ (∀ sm, (process_videos tool fs vd true).2 = RunResult.done sm →
      sm.skipped = 0
      ∧ sm.processed + sm.failed = (get_video_files fs vd).length) := by
  constructor
  · intro sm h
    unfold process_videos at h
    split at h
    · exact absurd h (by simp)
    · try dsimp only at h
      split at h
      · exact absurd h (by simp)
      · cases h
        have hskip := processLoop_skipped tool vd (get_video_files fs vd) fs 0 0 0 hnd
        have hsum := processLoop_sum tool vd false (get_video_files fs vd) fs 0 0 0
        constructor
        · simpa using hskip
        · simp only at hskip hsum ⊢
          omega
  · intro sm h
    unfold process_videos at h
    split at h
    · exact absurd h (by simp)
    · try dsimp only at h
      split at h
      · exact absurd h (by simp)
      · cases h
        have hskip := processLoop_skipped_force tool vd (get_video_files fs vd) fs 0 0 0
        have hsum := processLoop_sum tool vd true (get_video_files fs vd) fs 0 0 0
        constructor
        · simpa using hskip
        · simp only at hskip hsum ⊢
          omega

def fsC2w : FS := { dirs := [["vids"]], files := [["vids", "a.mp4"], ["vids", "b.mp4"]] }

def toolC2w : String → ToolOutcome := fun _ => ToolOutcome.ok ["frame_0001.jpg"]

theorem C2_witness :
    (Summary.mk 2 0 0 2).skipped = ((get_video_files fsC2w ["vids"]).filter
        (fun n => (is_already_processed fsC2w n ["vids"]).1)).length
    ∧ (Summary.mk 2 0 0 2).processed + (Summary.mk 2 0 0 2).failed =
        (get_video_files fsC2w ["vids"]).length - (Summary.mk 2 0 0 2).skipped :=
  (C2_skip_counts toolC2w fsC2w ["vids"] (by decide)).1 ⟨2, 0, 0, 2⟩ (by decide)

/-- C5: the process exits non-zero exactly when ffmpeg is unavailable or
no directory override is given and the Desktop cannot be located; in the
latter case it halts before any file discovery (`process_videos` is never
invoked).  In every other case — including failed videos, a missing
videos directory, or no matching files — it exits zero. -/
theorem C5_exit_code (fs : FS) (home : FPath) (ffmpeg : Bool) (arg : Option FPath)
    (force : Bool) (tool : String → ToolOutcome) :
    ((mainRun fs home ffmpeg arg force tool).exitCode ≠ 0 ↔
      (ffmpeg = false ∨ (arg = none ∧ fs.dirExists (home ++ ["Desktop"]) = false)))
    ∧ (arg = none → fs.dirExists (home ++ ["Desktop"]) = false →
        (mainRun fs home ffmpeg arg force tool).ranProcess = false) := by
  unfold mainRun get_desktop_path
  cases arg with
  | some d =>
    cases ffmpeg with
    | false => simp
    | true => simp
  | none =>
    try dsimp only
    by_cases hd : fs.dirExists (home ++ ["Desktop"]) = true
    · rw [if_pos hd]
      cases ffmpeg with
      | false => simp [hd]
      | true => simp [hd]
    · rw [if_neg hd]
      cases ffmpeg with
      | false => simp [Bool.not_eq_true] at hd; simp [hd]
      | true => simp [Bool.not_eq_true] at hd; simp [hd]

def fsC5w : FS := { dirs := [], files := [] }

def toolC5w : String → ToolOutcome := fun _ => ToolOutcome.ok []

theorem C5_witness :
    (mainRun fsC5w ["home"] true none false toolC5w).ranProcess = false :=
  (C5_exit_code fsC5w ["home"] true none false toolC5w).2 rfl (by decide)

def fsC8c : FS := { dirs := [["vids"]], files := [["vids", "a.mp4"]] }

def toolC8c : String → ToolOutcome := fun _ => ToolOutcome.exitErr "boom" []

/-- C8 counterexample: with one video whose extraction fails (tool exits
non-zero having written nothing), the first non-forced run fails it and
the second non-forced run — with no filesystem changes in between —
attempts it again (failed = 1, skipped = 0) instead of skipping every
video as the claim requires. -/
theorem C8_counterexample :
    (process_videos toolC8c fsC8c ["vids"] false).2 = RunResult.done ⟨0, 0, 1, 1⟩
    ∧ (process_videos toolC8c (process_videos toolC8c fsC8c ["vids"] false).1
        ["vids"] false).2 = RunResult.done ⟨0, 0, 1, 1⟩ := by decide

/-- C8 (amended): if every invocation the tool performs succeeds and
writes at least one correctly named frame file, then running the batch
twice without force, with no filesystem changes between the runs, makes
the second run skip every one of the N discovered videos, attempt zero
extractions, and leave the filesystem untouched.  (When a first-run
extraction fails — or succeeds writing no `frame_*.jpg` file — the second
run re-attempts that video, as the counterexample shows.) -/
theorem C8_second_run_skips_all (tool : String → ToolOutcome) (fs : FS) (vd : FPath)
    (htool : ∀ n, ∃ w, tool n = ToolOutcome.ok w ∧ ∃ m ∈ w, matchFramePat m = true)
    (hdir : fs.dirExists vd = true)
    (hne : get_video_files fs vd ≠ []) :
    (process_videos tool (process_videos tool fs vd false).1 vd false).2 =
      RunResult.done ⟨0, (get_video_files fs vd).length, 0,
        (get_video_files fs vd).length⟩
    ∧ (process_videos tool (process_videos tool fs vd false).1 vd false).1 =
        (process_videos tool fs vd false).1 := by
  have h1 := process_videos_eq tool fs vd false hdir hne
  have hle : FS.Le fs (processLoop tool vd false (get_video_files fs vd) fs 0 0 0).1 :=
    le_processLoop tool vd false (get_video_files fs vd) fs 0 0 0
  have hdir1 : (processLoop tool vd false (get_video_files fs vd) fs 0 0 0).1.dirExists vd
      = true := dirExists_mono hle hdir
  have hsame : get_video_files (processLoop tool vd false (get_video_files fs vd) fs 0 0 0).1 vd
      = get_video_files fs vd :=
    get_video_files_congr (filesIn_vd_processLoop tool vd false (get_video_files fs vd) fs 0 0 0)
  have hall : ∀ v ∈ get_video_files fs vd,
      (is_already_processed (processLoop tool vd false (get_video_files fs vd) fs 0 0 0).1
        v vd).1 = true :=
    processLoop_all_processed tool vd htool (get_video_files fs vd) fs 0 0 0
  have h2 := process_videos_eq tool
    (processLoop tool vd false (get_video_files fs vd) fs 0 0 0).1 vd false hdir1
    (by rw [hsame]; exact hne)
  have hloop2 : processLoop tool vd false
      (get_video_files (processLoop tool vd false (get_video_files fs vd) fs 0 0 0).1 vd)
      (processLoop tool vd false (get_video_files fs vd) fs 0 0 0).1 0 0 0 =
      ((processLoop tool vd false (get_video_files fs vd) fs 0 0 0).1, 0,
        0 + (get_video_files fs vd).length, 0) := by
    rw [hsame]
    exact processLoop_all_skip tool vd (get_video_files fs vd) _ 0 0 0 hall
  rw [h1]
  try dsimp only
  rw [h2, hloop2]
  try dsimp only
  rw [hsame]
  exact ⟨by rw [Nat.zero_add], rfl⟩

def fsC8w : FS := { dirs := [["vids"]], files := [["vids", "a.mp4"]] }

def toolC8w : String → ToolOutcome := fun _ => ToolOutcome.ok ["frame_0001.jpg"]

theorem C8_witness :
    (process_videos toolC8w (process_videos toolC8w fsC8w ["vids"] false).1
        ["vids"] false).2 =
      RunResult.done ⟨0, (get_video_files fsC8w ["vids"]).length, 0,
        (get_video_files fsC8w ["vids"]).length⟩ :=
  (C8_second_run_skips_all toolC8w fsC8w ["vids"]
    (fun _ => ⟨["frame_0001.jpg"], rfl, "frame_0001.jpg", by decide, by decide⟩)
    (by decide) (by decide)).1

def fsC3w : FS :=
  { dirs := [["vids", "a", "all_frames"]]
    files := [["vids", "a", "all_frames", "frame_0001.jpg"]] }

theorem C3_witness :
    (is_already_processed fsC3w "a.mp4" ["vids"] =
        (true, (framesIn fsC3w (["vids"] ++ [stem "a.mp4", "all_frames"])).length)
      ∧ fsC3w.dirExists (["vids"] ++ [stem "a.mp4", "all_frames"]) = true
      ∧ framesIn fsC3w (["vids"] ++ [stem "a.mp4", "all_frames"]) ≠ [])
    ∨ (is_already_processed fsC3w "a.mp4" ["vids"] = (false, 0)
      ∧ (fsC3w.dirExists (["vids"] ++ [stem "a.mp4", "all_frames"]) = false
        ∨ framesIn fsC3w (["vids"] ++ [stem "a.mp4", "all_frames"]) = [])) :=
  C3_already_processed_spec fsC3w "a.mp4" ["vids"]
